import Mathlib

/-!
Shallow embedding of `src/src/bumpx.cpp` (iOrange's bumpx texture baking
tool) and verification of its specification claims.

Conventions of the embedding:
* 8-bit channel bytes are modelled as `ℕ` (every source value fits in one
  byte; where C truncates or clamps, the embedding does so explicitly).
* C `int` arithmetic in the residual computation is modelled on `ℤ` with an
  explicit clamp to `[0, 255]` — the operands are bytes, so ranges never
  reach machine-word overflow.
* Byte buffers written through raw pointers are modelled as total maps
  `ℕ → ℕ` from byte addresses to byte values, updated functionally in the
  same order as the C loops.
* Little-endian reinterpret-casts (`uint16_t`/`uint64_t` loads, the DDS
  header dump of a padding-free all-`uint32` struct) are modelled as
  explicit little-endian byte (de)serialisation.
* The single genuinely floating-point expression reachable from the claims
  — the gloss curve `(uint8_t)(sqrt(g / 255.0f) * 255.0f)` — is modelled
  exactly; see `glossCurve` for the justification that the float program
  computes `⌊√(255 g)⌋ = Nat.sqrt (255 * g)` for every byte `g`.
* The mip renormalisation (`MakeMip`'s lambda over floats) is modelled over
  `ℝ`; the claims about it concern only the alpha channel, which the
  lambda sets from the integer literal `0`.
-/

namespace Bumpx

/-- `PixelRgba` from the source: four 8-bit channels. -/
structure Pix where
  r : ℕ
  g : ℕ
  b : ℕ
  a : ℕ
deriving DecidableEq, Repr

/-- `Bitmap<T>` from the source: width, height and a row-major pixel list. -/
structure Bmp (α : Type) where
  width : ℕ
  height : ℕ
  pixels : List α
deriving DecidableEq, Repr

/-- `Clamp(v, left, right) = std::min(std::max(left, v), right)` on C `int`,
modelled on `ℤ`. -/
def clampZ (v lo hi : ℤ) : ℤ :=
  min (max lo v) hi

/-- `Log2I`: `result = 0; while (v >>= 1) ++result;`. -/
def log2I : ℕ → ℕ
  | 0 => 0
  | 1 => 0
  | n + 2 => log2I ((n + 2) / 2) + 1

/-- `IsPowerOfTwo(v) = v != 0 && (v & (v - 1)) == 0`. -/
def isPowerOfTwo (v : ℕ) : Bool :=
  v != 0 && (v &&& (v - 1)) == 0

/-- `kMinMipSize = 4` (the result is always BC compressed). -/
def kMinMipSize : ℕ := 4

/-- The dimension sequence produced by the `Texture` constructor loop:
starting from `(w, h)`, each following mip is
`(max (w / 2) 4, max (h / 2) 4)`; `n` entries are produced. -/
def mipSizes (w h : ℕ) : ℕ → List (ℕ × ℕ)
  | 0 => []
  | n + 1 => (w, h) :: mipSizes (max (w / 2) kMinMipSize) (max (h / 2) kMinMipSize) n

/-- The dimensions of the mips of `Texture(w, h)`:
`numMips = Log2I(max(w, h))` bitmaps produced by the halving loop. -/
def textureMipSizes (w h : ℕ) : List (ℕ × ℕ) :=
  mipSizes w h (log2I (max w h))

/-- The `Texture<T>` constructor: every mip is a zero-filled bitmap
(`Bitmap(w, h)` value-initialises each pixel to `{0}`). -/
def mkTexture {α : Type} (zero : α) (w h : ℕ) : List (Bmp α) :=
  (textureMipSizes w h).map (fun p => ⟨p.1, p.2, List.replicate (p.1 * p.2) zero⟩)

/-- Replace mip 0's pixel payload (`texture.mips[0] = bitmap`).
Mip 0 of `mkTexture` already has the base dimensions. -/
def setMip0 {α : Type} (mips : List (Bmp α)) (bmp : Bmp α) : List (Bmp α) :=
  match mips with
  | [] => []
  | _ :: rest => bmp :: rest

/-- The gloss curve `scast<uint8_t>(std::sqrt(scast<float>(g) / 255.0f) * 255.0f)`.

The C cast from `float` to `uint8_t` truncates toward zero.  In exact real
arithmetic `√(g / 255) · 255 = √(255 g)`, so the truncated value is
`⌊√(255 g)⌋ = Nat.sqrt (255 * g)`.  The three float roundings (division,
`sqrt`, multiplication) perturb the product by at most `≈ 4·10⁻⁵`, while for
`g ≤ 255` the distance from `√(255 g)` to the nearest integer other than
itself is at least `1/511 ≈ 2·10⁻³` (and when `255 g` is a perfect square —
`g = 0` and `g = 255` — the float computation is exact), so the float
program truncates to the same integer for every byte `g`. -/
def glossCurve (g : ℕ) : ℕ :=
  Nat.sqrt (255 * g)

/-- The bump assembly lambda (driver step 2): from a normal-map pixel `np`
and a gloss mip byte `gp`, build
`{ linearGloss ? gp : glossCurve gp, np.b, np.g, np.r }`. -/
def assembleBumpPixel (linearGloss : Bool) (np : Pix) (gp : ℕ) : Pix :=
  { r := if linearGloss then gp else glossCurve gp
    g := np.b
    b := np.g
    a := np.r }

/-- The residual lambda (driver step 4, first transform): per-channel
difference between the assembled pixel `np` and the decoded pixel `dp`,
amplified, biased and clamped; alpha is the literal `0`. -/
def residualPixel (np dp : Pix) : Pix :=
  { r := (clampZ (((np.a : ℤ) - (dp.a : ℤ)) * 2 + 128) 0 255).toNat
    g := (clampZ (((np.b : ℤ) - (dp.b : ℤ)) * 2 + 128) 0 255).toNat
    b := (clampZ (((np.g : ℤ) - (dp.g : ℤ)) * 2 + 128) 0 255).toNat
    a := 0 }

/-- The height-move lambda (driver step 4, second transform):
`{ xp.r, xp.g, xp.b, hp }`. -/
def heightMovePix (xp : Pix) (hp : ℕ) : Pix :=
  { r := xp.r, g := xp.g, b := xp.b, a := hp }

/-- One mip of the bump assembly: `std::transform` over the zipped normal
and gloss pixel sequences. -/
def assembleBumpMipPixels (linearGloss : Bool) (normal : List Pix) (gloss : List ℕ) :
    List Pix :=
  List.zipWith (assembleBumpPixel linearGloss) normal gloss

/-- One mip of the bump# assembly: residual transform over the zipped
normal and decoded sequences, then the height-move transform with the
height mip. -/
def bumpXMipPixels (normal decoded : List Pix) (height : List ℕ) : List Pix :=
  List.zipWith heightMovePix (List.zipWith residualPixel normal decoded) height

/-! ## BC3 reference decoder (byte-buffer level)

The decoders write through raw byte pointers; a buffer is a total map
`ℕ → ℕ` from byte addresses to byte values. -/

/-- Single-byte store `buf[addr] = v`. -/
def upd (f : ℕ → ℕ) (addr v : ℕ) : ℕ → ℕ :=
  fun i => if i = addr then v else f i

/-- The three stores `dst[0] = r; dst[1] = g; dst[2] = b;` of the color
decoder's inner loop. -/
def writeRGB (f : ℕ → ℕ) (addr : ℕ) (c : ℕ × ℕ × ℕ) : ℕ → ℕ :=
  fun i =>
    if i = addr then c.1
    else if i = addr + 1 then c.2.1
    else if i = addr + 2 then c.2.2
    else f i

/-- Channel projection of an expanded RGB triple: channel 0 is red,
1 green, 2 blue (the byte written at `dst[c]`). -/
def rgbComp (c : ℕ × ℕ × ℕ) : ℕ → ℕ
  | 0 => c.1
  | 1 => c.2.1
  | _ => c.2.2

/-- The `colors[4]` table of `DecodeBCColorBlock`, from the raw RGB565
endpoint words `c0, c1`: 5-bit fields expand via `<< 3`, the 6-bit field
via `<< 2`; in BC1 mode (`!isBC3 && c0 <= c1`) the third color is the
rounded average and the fourth is zero, otherwise the two thirds-points
`(2a + b + 1) / 3` and `(a + 2b + 1) / 3` are used per channel. -/
def bcColors (isBC3 : Bool) (c0 c1 : ℕ) : ℕ → ℕ × ℕ × ℕ :=
  let e0 : ℕ × ℕ × ℕ :=
    (((c0 >>> 11) &&& 0x1F) <<< 3, ((c0 >>> 5) &&& 0x3F) <<< 2, (c0 &&& 0x1F) <<< 3)
  let e1 : ℕ × ℕ × ℕ :=
    (((c1 >>> 11) &&& 0x1F) <<< 3, ((c1 >>> 5) &&& 0x3F) <<< 2, (c1 &&& 0x1F) <<< 3)
  fun k =>
    match k with
    | 0 => e0
    | 1 => e1
    | 2 =>
      if c0 > c1 || isBC3 then
        ((2 * e0.1 + e1.1 + 1) / 3, (2 * e0.2.1 + e1.2.1 + 1) / 3,
          (2 * e0.2.2 + e1.2.2 + 1) / 3)
      else
        ((e0.1 + e1.1 + 1) >>> 1, (e0.2.1 + e1.2.1 + 1) >>> 1,
          (e0.2.2 + e1.2.2 + 1) >>> 1)
    | _ =>
      if c0 > c1 || isBC3 then
        ((e0.1 + 2 * e1.1 + 1) / 3, (e0.2.1 + 2 * e1.2.1 + 1) / 3,
          (e0.2.2 + 2 * e1.2.2 + 1) / 3)
      else
        (0, 0, 0)

/-- Inner `x` loop of `DecodeBCColorBlock`: starting at `addr`, write
`colors[indexes & 3]` and advance `indexes >>= 2`, `dst += xOff`,
`w` times. -/
def decColorRow (xOff : ℕ) (colors : ℕ → ℕ × ℕ × ℕ) :
    (ℕ → ℕ) → ℕ → ℕ → ℕ → (ℕ → ℕ)
  | f, _, _, 0 => f
  | f, addr, indexes, w + 1 =>
    decColorRow xOff colors (writeRGB f addr (colors (indexes &&& 3)))
      (addr + xOff) (indexes >>> 2) w

/-- Outer `y` loop of `DecodeBCColorBlock`: row `y` starts at
`dest + yOff * y` and consumes the index byte `src[4 + y]`; the remaining
index bytes are passed as the list. -/
def decColorRows (xOff yOff w : ℕ) (colors : ℕ → ℕ × ℕ × ℕ) :
    (ℕ → ℕ) → ℕ → ℕ → List ℕ → (ℕ → ℕ)
  | f, _, _, [] => f
  | f, base, y, idx :: rest =>
    decColorRows xOff yOff w colors
      (decColorRow xOff colors f (base + yOff * y) idx w) base (y + 1) rest

/-- `DecodeBCColorBlock<isBC3>(dest, w, h, xOff, yOff, src)`: the two
RGB565 endpoint words are little-endian `uint16_t` loads of `src[0..3]`;
then the row loop writes `colors[index]` into the RGB bytes. -/
def decodeBCColorBlock (isBC3 : Bool) (f : ℕ → ℕ) (base w h xOff yOff : ℕ)
    (src : List ℕ) : ℕ → ℕ :=
  let c0 := src.getD 0 0 + 256 * src.getD 1 0
  let c1 := src.getD 2 0 + 256 * src.getD 3 0
  decColorRows xOff yOff w (bcColors isBC3 c0 c1) f base 0 ((src.drop 4).take h)

/-- The alpha value for a 3-bit index `k` in `DecodeBC3AlphaBlock`:
`a0` for 0, `a1` for 1; when `a0 > a1` the seven-step ramp
`((8 - k) a0 + (k - 1) a1) / 7`; otherwise the five-step ramp
`((6 - k) a0 + (k - 1) a1) / 5` with `k = 6 ↦ 0` and `k = 7 ↦ 255`. -/
def bc3AlphaValue (a0 a1 k : ℕ) : ℕ :=
  if k = 0 then a0
  else if k = 1 then a1
  else if a0 > a1 then ((8 - k) * a0 + (k - 1) * a1) / 7
  else if k ≥ 6 then (if k = 6 then 0 else 255)
  else ((6 - k) * a0 + (k - 1) * a1) / 5

/-- Inner `x` loop of `DecodeBC3AlphaBlock`: write the alpha for the low
3 bits, advance `alpha >>= 3`, `dst += xOff`; returns the updated buffer
and the remaining bit stream. -/
def decAlphaRow (xOff a0 a1 : ℕ) :
    (ℕ → ℕ) → ℕ → ℕ → ℕ → ((ℕ → ℕ) × ℕ)
  | f, _, bits, 0 => (f, bits)
  | f, addr, bits, w + 1 =>
    decAlphaRow xOff a0 a1 (upd f addr (bc3AlphaValue a0 a1 (bits &&& 7)))
      (addr + xOff) (bits >>> 3) w

/-- Outer `y` loop of `DecodeBC3AlphaBlock`: row `y` starts at
`dest + yOff * y`; after a row of width `w < 4` the stream skips
`3 * (4 - w)` bits. -/
def decAlphaRows (xOff yOff w a0 a1 : ℕ) :
    (ℕ → ℕ) → ℕ → ℕ → ℕ → ℕ → (ℕ → ℕ)
  | f, _, _, _, 0 => f
  | f, base, y, bits, h + 1 =>
    let step := decAlphaRow xOff a0 a1 f (base + yOff * y) bits w
    decAlphaRows xOff yOff w a0 a1 step.1 base (y + 1)
      (if w < 4 then step.2 >>> (3 * (4 - w)) else step.2) h

/-- Little-endian value of a byte list (`leNat [b0, b1, ...] = b0 + 256 b1 + ...`),
modelling the unaligned `uint64_t` load of `src[0..7]`. -/
def leNat : List ℕ → ℕ
  | [] => 0
  | b :: rest => b + 256 * leNat rest

/-- `DecodeBC3AlphaBlock(dest, w, h, xOff, yOff, src)`: endpoints
`a0 = src[0]`, `a1 = src[1]`; the 48-bit index stream is the little-endian
`uint64_t` load shifted right by 16. -/
def decodeBC3AlphaBlock (f : ℕ → ℕ) (base w h xOff yOff : ℕ) (src : List ℕ) :
    ℕ → ℕ :=
  decAlphaRows xOff yOff w (src.getD 0 0) (src.getD 1 0) f base 0
    (leNat (src.take 8) >>> 16) h

/-- One block of `DecompressBC3_MY`: the alpha sub-block (first 8 bytes of
`src`) decodes into the alpha bytes (`dst + 3`, stride 4), then the color
sub-block (last 8 bytes) decodes into the RGB bytes; `yOff` is the byte
row stride `output.width * 4`. -/
def decodeBC3Block (f : ℕ → ℕ) (base yOff : ℕ) (src : List ℕ) : ℕ → ℕ :=
  decodeBCColorBlock true
    (decodeBC3AlphaBlock f (base + 3) 4 4 4 yOff (src.take 8))
    base 4 4 4 yOff (src.drop 8)

/-- `DecompressBC3_MY`: iterate 4×4 blocks in row-major order over an
output bitmap of dimensions `W × H`; block `(bx, by)` reads the 16 source
bytes at offset `16 * (by * (W / 4) + bx)` and writes at pixel
`(4 bx, 4 by)`.  The destination starts zero-filled (the driver
decompresses into a freshly constructed `Texture` mip). -/
def decompressBC3 (blocks : List ℕ) (W H : ℕ) : ℕ → ℕ :=
  (List.range (H / 4)).foldl
    (fun f by' =>
      (List.range (W / 4)).foldl
        (fun g bx =>
          decodeBC3Block g ((4 * by' * W + 4 * bx) * 4) (W * 4)
            ((blocks.drop (16 * (by' * (W / 4) + bx))).take 16))
        f)
    (fun _ => 0)

/-- Read the decompressed byte buffer back as a pixel list
(pixel `k` is bytes `4k .. 4k + 3`). -/
def bufToPixels (f : ℕ → ℕ) (count : ℕ) : List Pix :=
  (List.range count).map (fun k => ⟨f (4 * k), f (4 * k + 1), f (4 * k + 2), f (4 * k + 3)⟩)

/-! ## DDS writer -/

/-- Little-endian serialisation of a `uint32_t` (larger values truncate to
the low 32 bits, as the C casts do). -/
def u32le (v : ℕ) : List ℕ :=
  [v % 256, (v >>> 8) % 256, (v >>> 16) % 256, (v >>> 24) % 256]

/-- The 32 `uint32_t` values `SaveAsDDS` writes before the payload: the
magic, then the `DDSURFACEDESC2` record (all-`uint32` struct, no padding)
field by field in declaration order: `dwSize = 124`, `dwFlags = 0x21007`,
`dwHeight`, `dwWidth`, `lPitch/dwLinearSize`, `dwBackBufferCount`,
`dwMipMapCount`, `dwAlphaBitDepth`, `dwUnused0`, `lpSurface`, four
`DDCOLORKEY`s, `DDPIXELFORMAT` (`dwSize = 32`, `dwFlags = 4`,
`dwFourCC = "DXT5"`, five mask fields), `DDSCAPS2` (`dwCaps = 0x401000`,
three more), `dwUnused1`; unset fields are zero (`desc = {}`). -/
def ddsHeaderWords (w h n : ℕ) : List ℕ :=
  [0x20534444,
   124, 0x00021007, h, w, 0, 0, n, 0, 0, 0,
   0, 0, 0, 0, 0, 0, 0, 0,
   32, 0x00000004, 0x35545844, 0, 0, 0, 0, 0,
   0x00401000, 0, 0, 0,
   0]

/-- The 128 header bytes: each `uint32_t` serialised little-endian. -/
def ddsHeaderBytes (w h n : ℕ) : List ℕ :=
  ((ddsHeaderWords w h n).map u32le).flatten

/-- `SaveAsDDS(compressedMips, w, h)` as the byte stream it writes:
header, then the mip payloads concatenated in order with no padding. -/
def saveAsDDS (mips : List (List ℕ)) (w h : ℕ) : List ℕ :=
  ddsHeaderBytes w h mips.length ++ mips.flatten

/-- Little-endian `uint32_t` read at a byte offset (for stating header
field values). -/
def readU32 (l : List ℕ) (off : ℕ) : ℕ :=
  l.getD off 0 + 256 * l.getD (off + 1) 0 + 65536 * l.getD (off + 2) 0 +
    16777216 * l.getD (off + 3) 0

/-! ## Mip builder -/

/-- The renormalisation lambda of `MakeMip<T, normalize>` for a pixel type
with at least three channels, over exact reals: unpack `(r, g, b)` to
`[-1, 1]³`, scale by the reciprocal length, repack with truncating
`uint8_t` casts.  `T result = { 0 };` value-initialises the pixel, so the
alpha channel of the result is the literal `0`. -/
noncomputable def normalizePixel (p : Pix) : Pix :=
  let x : ℝ := min (max 0 ((p.r : ℝ) / 255)) 1 * 2 - 1
  let y : ℝ := min (max 0 ((p.g : ℝ) / 255)) 1 * 2 - 1
  let z : ℝ := min (max 0 ((p.b : ℝ) / 255)) 1 * 2 - 1
  let il : ℝ := 1 / Real.sqrt (x * x + y * y + z * z)
  { r := ⌊min (max 0 ((x * il * 0.5 + 0.5) * 255)) 255⌋₊
    g := ⌊min (max 0 ((y * il * 0.5 + 0.5) * 255)) 255⌋₊
    b := ⌊min (max 0 ((z * il * 0.5 + 0.5) * 255)) 255⌋₊
    a := 0 }

/-- `MakeMip<PixelRgba, normalize>`: resample (external Kaiser kernel,
taken as a parameter), then, when `normalize` holds (RGBA has ≥ 3
channels), renormalise every destination pixel. -/
noncomputable def makeMipRgba (resample : Bmp Pix → ℕ → ℕ → List Pix)
    (normalize : Bool) (src : Bmp Pix) (dw dh : ℕ) : List Pix :=
  let d := resample src dw dh
  if normalize then d.map normalizePixel else d

/-- `MakeMip<PixelMono, false>`: Mono has one channel, so the
renormalisation branch is compiled out. -/
def makeMipMono (resample : Bmp ℕ → ℕ → ℕ → List ℕ) (src : Bmp ℕ)
    (dw dh : ℕ) : List ℕ :=
  resample src dw dh

/-- `BuildMipchain`: for `i = 1 .. numMips - 1`, rebuild mip `i` from mip
`max 0 (i - 3)` (already updated by earlier iterations). -/
def buildMipchain {α : Type} (mk : Bmp α → ℕ → ℕ → List α)
    (mips : List (Bmp α)) : List (Bmp α) :=
  (List.range' 1 (mips.length - 1)).foldl
    (fun acc i =>
      let src := acc.getD (i - 3) ⟨0, 0, []⟩
      let dst := acc.getD i ⟨0, 0, []⟩
      acc.set i ⟨dst.width, dst.height, mk src dst.width dst.height⟩)
    mips

/-! ## BC3 encoder dispatch -/

/-- The four bytes of one pixel in the gathered 64-byte block. -/
def pixelBytes (p : Pix) : List ℕ :=
  [p.r, p.g, p.b, p.a]

/-- Gather the 16 source pixels of the block at `(x, y)` row by row into
the interleaved RGBA byte buffer handed to the block encoder. -/
def gatherBlock (bmp : Bmp Pix) (x y : ℕ) : List ℕ :=
  ((List.range 4).map (fun i =>
    ((List.range 4).map (fun j =>
      pixelBytes (bmp.pixels.getD ((y + i) * bmp.width + (x + j)) ⟨0, 0, 0, 0⟩))).flatten)).flatten

/-- Force a byte list to length exactly `n` (the external block encoder
writes exactly 16 bytes into its slot of the pre-sized buffer). -/
def padTo (n : ℕ) (l : List ℕ) : List ℕ :=
  l.take n ++ List.replicate (n - l.length) 0

/-- The shape shared by `CompressBC3_STB` / `_Squish` / `_RGBCX`: iterate
blocks row-major (`y` outer, `x` inner, step 4), gather each block and
invoke the tier's block encoder (external, taken as a parameter producing
the 16 output bytes). -/
def compressBC3 (blockEncode : List ℕ → List ℕ) (bmp : Bmp Pix) : List ℕ :=
  ((List.range (bmp.height / 4)).map (fun by' =>
    ((List.range (bmp.width / 4)).map (fun bx =>
      padTo 16 (blockEncode (gatherBlock bmp (4 * bx) (4 * by'))))).flatten)).flatten

/-! ## Pipeline driver (`Main` after CLI and file probing) -/

/-- The fatal-error exits of the driver (`return -1`). -/
inductive DriverError where
  | normalmapLoadFailed
  | notPowerOfTwo
deriving DecidableEq, Repr

/-- Auxiliary-input admission: a gloss/height bitmap that failed to load is
absent; one whose dimensions disagree with the normal map is cleared and
treated as absent. -/
def effectiveAux (w h : ℕ) : Option (Bmp ℕ) → Option (Bmp ℕ)
  | none => none
  | some m => if m.width = w ∧ m.height = h then some m else none

/-- Driver step 1 for the normal map: construct the texture, assign mip 0,
build the mipchain with `normalize = true`. -/
noncomputable def normalMips (resampleRgba : Bmp Pix → ℕ → ℕ → List Pix)
    (nm : Bmp Pix) : List (Bmp Pix) :=
  buildMipchain (makeMipRgba resampleRgba true)
    (setMip0 (mkTexture (⟨0, 0, 0, 0⟩ : Pix) nm.width nm.height) nm)

/-- Driver step 1 for the gloss map: when absent the texture keeps its
zero-filled constructor state (`BuildMipchain` is skipped); otherwise
mip 0 is assigned and the mipchain built without normalisation. -/
def glossMips (resampleMono : Bmp ℕ → ℕ → ℕ → List ℕ) (w h : ℕ) :
    Option (Bmp ℕ) → List (Bmp ℕ)
  | none => mkTexture (0 : ℕ) w h
  | some g => buildMipchain (makeMipMono resampleMono) (setMip0 (mkTexture 0 w h) g)

/-- Driver step 1 for the height map: a missing height map is synthesised
as a constant-128 bitmap at normal dimensions, so the mipchain is always
built. -/
def heightMips (resampleMono : Bmp ℕ → ℕ → ℕ → List ℕ) (w h : ℕ)
    (heightEff : Option (Bmp ℕ)) : List (Bmp ℕ) :=
  let hm := heightEff.getD ⟨w, h, List.replicate (w * h) 128⟩
  buildMipchain (makeMipMono resampleMono) (setMip0 (mkTexture 0 w h) hm)

/-- Driver step 2: assemble the bump pixels mip by mip (the normal-map mip
buffers are overwritten with the result). -/
def assembleBumpMips (linearGloss : Bool) (nm : List (Bmp Pix))
    (gm : List (Bmp ℕ)) : List (Bmp Pix) :=
  List.zipWith
    (fun nb gb => ⟨nb.width, nb.height, assembleBumpMipPixels linearGloss nb.pixels gb.pixels⟩)
    nm gm

/-- Driver steps 3 and 5: compress every mip at the chosen tier. -/
def compressMips (blockEncode : List ℕ → List ℕ) (mips : List (Bmp Pix)) :
    List (List ℕ) :=
  mips.map (fun m => compressBC3 blockEncode m)

/-- Driver step 4: for each mip, decompress the encoded bump mip into the
freshly constructed (zero) bump# mip, take the residual against the
assembled pixels, then move the height mip into alpha. -/
def bumpXMips (assembled : List (Bmp Pix)) (compressed : List (List ℕ))
    (hm : List (Bmp ℕ)) : List (Bmp Pix) :=
  List.zipWith
    (fun (p : Bmp Pix × List ℕ) hb =>
      let nb := p.1
      let dec := bufToPixels (decompressBC3 p.2 nb.width nb.height) (nb.width * nb.height)
      (⟨nb.width, nb.height, bumpXMipPixels nb.pixels dec hb.pixels⟩ : Bmp Pix))
    (assembled.zip compressed) hm

/-- The driver pipeline after input loading: validation, mip building,
bump assembly, compression, residual assembly, compression, and the two
DDS byte streams.  `Except.error` models `return -1` (non-zero exit
status, nothing written); external collaborators (the resampler and the
tier block encoder) are parameters. -/
noncomputable def runPipeline (resampleRgba : Bmp Pix → ℕ → ℕ → List Pix)
    (resampleMono : Bmp ℕ → ℕ → ℕ → List ℕ)
    (blockEncode : List ℕ → List ℕ) (linearGloss : Bool)
    (normalmap : Bmp Pix) (glossLoaded heightLoaded : Option (Bmp ℕ)) :
    Except DriverError (List ℕ × List ℕ) :=
  if normalmap.pixels.isEmpty then .error .normalmapLoadFailed
  else if !isPowerOfTwo normalmap.width || !isPowerOfTwo normalmap.height then
    .error .notPowerOfTwo
  else
    let w := normalmap.width
    let h := normalmap.height
    let nm := normalMips resampleRgba normalmap
    let gm := glossMips resampleMono w h (effectiveAux w h glossLoaded)
    let hm := heightMips resampleMono w h (effectiveAux w h heightLoaded)
    let assembled := assembleBumpMips linearGloss nm gm
    let bumpC := compressMips blockEncode assembled
    let bx := bumpXMips assembled bumpC hm
    let bxC := compressMips blockEncode bx
    .ok (saveAsDDS bumpC w h, saveAsDDS bxC w h)

/-! ## Helper lemmas -/

theorem getD_replicate_self {α : Type} (c : α) : ∀ (n k : ℕ), (List.replicate n c).getD k c = c := by
  intro n
  induction n with
  | zero => intro k; cases k <;> rfl
  | succ n ih =>
    intro k
    cases k with
    | zero => rfl
    | succ k => exact ih k

theorem zero_texture_pixels (dims : List (ℕ × ℕ)) (i k : ℕ) :
    ((dims.map (fun p => (⟨p.1, p.2, List.replicate (p.1 * p.2) (0 : ℕ)⟩ : Bmp ℕ))).getD i
      ⟨0, 0, []⟩).pixels.getD k 0 = 0 := by
  induction dims generalizing i with
  | nil => cases i <;> rfl
  | cons d rest ih =>
    cases i with
    | zero => exact getD_replicate_self 0 (d.1 * d.2) k
    | succ i => exact ih i

theorem normalizePixel_alpha (p : Pix) : (normalizePixel p).a = 0 := rfl

theorem log2I_step (v : ℕ) (h : 2 ≤ v) : log2I v = log2I (v / 2) + 1 := by
  obtain ⟨m, rfl⟩ : ∃ m, v = m + 2 := ⟨v - 2, by omega⟩
  simp only [log2I]

theorem glossCurve_64 : glossCurve 64 = 127 := by
  have h : (127 : ℕ) = Nat.sqrt (255 * 64) := Nat.eq_sqrt.mpr (by norm_num)
  simpa [glossCurve] using h.symm

/-! ## C1 -/

/-- C1 (confirmed).  Residual assembly: for every mip pixel index `k`, the
stored bump# pixel combines the clamped amplified residuals of the
assembled pixel `np` against the decoded pixel `dp` — red from the alpha
channels, green from the blue channels, blue from the green channels —
and its alpha is the height mip's red byte; with a lossless codec
(`decoded = normal`) every residual byte is 128 and alpha is the height
byte. -/
theorem C1_residual_assembly (normal decoded : List Pix) (height : List ℕ) (k : ℕ)
    (hk1 : k < normal.length) (hk2 : k < decoded.length) (hk3 : k < height.length) :
    (bumpXMipPixels normal decoded height).getD k ⟨0, 0, 0, 0⟩ =
      { r := (clampZ ((((normal.getD k ⟨0, 0, 0, 0⟩).a : ℤ) -
                ((decoded.getD k ⟨0, 0, 0, 0⟩).a : ℤ)) * 2 + 128) 0 255).toNat
        g := (clampZ ((((normal.getD k ⟨0, 0, 0, 0⟩).b : ℤ) -
                ((decoded.getD k ⟨0, 0, 0, 0⟩).b : ℤ)) * 2 + 128) 0 255).toNat
        b := (clampZ ((((normal.getD k ⟨0, 0, 0, 0⟩).g : ℤ) -
                ((decoded.getD k ⟨0, 0, 0, 0⟩).g : ℤ)) * 2 + 128) 0 255).toNat
        a := height.getD k 0 } ∧
    (decoded = normal →
      (bumpXMipPixels normal decoded height).getD k ⟨0, 0, 0, 0⟩ =
        { r := 128, g := 128, b := 128, a := height.getD k 0 }) := by
  have hlen : k < (bumpXMipPixels normal decoded height).length := by
    simp only [bumpXMipPixels, List.length_zipWith]
    omega
  have hres : k < (List.zipWith residualPixel normal decoded).length := by
    simp only [List.length_zipWith]
    omega
  have hmain : (bumpXMipPixels normal decoded height).getD k ⟨0, 0, 0, 0⟩ =
      heightMovePix (residualPixel (normal.getD k ⟨0, 0, 0, 0⟩) (decoded.getD k ⟨0, 0, 0, 0⟩))
        (height.getD k 0) := by
    rw [List.getD_eq_getElem _ _ hlen]
    simp only [bumpXMipPixels]
    rw [List.getElem_zipWith, List.getElem_zipWith]
    rw [List.getD_eq_getElem _ _ hk1, List.getD_eq_getElem _ _ hk2, List.getD_eq_getElem _ _ hk3]
  constructor
  · rw [hmain]
    rfl
  · intro hdec
    subst hdec
    rw [hmain]
    simp [residualPixel, heightMovePix, clampZ]

/-- Closed witness for `C1_residual_assembly`. -/
theorem C1_residual_assembly_witness :
    (bumpXMipPixels [⟨10, 20, 30, 40⟩] [⟨10, 20, 30, 40⟩] [77]).getD 0 ⟨0, 0, 0, 0⟩ =
      { r := (clampZ ((((([⟨10, 20, 30, 40⟩] : List Pix).getD 0 ⟨0, 0, 0, 0⟩).a : ℤ) -
                ((([⟨10, 20, 30, 40⟩] : List Pix).getD 0 ⟨0, 0, 0, 0⟩).a : ℤ)) * 2 + 128) 0 255).toNat
        g := (clampZ ((((([⟨10, 20, 30, 40⟩] : List Pix).getD 0 ⟨0, 0, 0, 0⟩).b : ℤ) -
                ((([⟨10, 20, 30, 40⟩] : List Pix).getD 0 ⟨0, 0, 0, 0⟩).b : ℤ)) * 2 + 128) 0 255).toNat
        b := (clampZ ((((([⟨10, 20, 30, 40⟩] : List Pix).getD 0 ⟨0, 0, 0, 0⟩).g : ℤ) -
                ((([⟨10, 20, 30, 40⟩] : List Pix).getD 0 ⟨0, 0, 0, 0⟩).g : ℤ)) * 2 + 128) 0 255).toNat
        a := ([77] : List ℕ).getD 0 0 } ∧
    (([⟨10, 20, 30, 40⟩] : List Pix) = [⟨10, 20, 30, 40⟩] →
      (bumpXMipPixels [⟨10, 20, 30, 40⟩] [⟨10, 20, 30, 40⟩] [77]).getD 0 ⟨0, 0, 0, 0⟩ =
        { r := 128, g := 128, b := 128, a := ([77] : List ℕ).getD 0 0 }) :=
  C1_residual_assembly [⟨10, 20, 30, 40⟩] [⟨10, 20, 30, 40⟩] [77] 0
    (by decide) (by decide) (by decide)

/-! ## C2 -/

/-- C2 counterexample.  The claim says a constant gloss of 64 produces
bump red `round(sqrt(64/255)·255) = 128`; the code's `uint8_t` cast
truncates, and `⌊sqrt(64/255)·255⌋ = ⌊sqrt(255·64)⌋ = 127`, so the
assembled red byte is 127, not 128. -/
theorem C2_gloss_counterexample :
    (assembleBumpPixel false ⟨128, 128, 255, 0⟩ 64).r = 127 ∧ (127 : ℕ) ≠ 128 := by
  refine ⟨?_, by decide⟩
  show glossCurve 64 = 127
  exact glossCurve_64

/-- C2 (corrected).  Gloss curve: with the linear-gloss flag unset, the
assembled bump red channel is the truncation (not rounding) of
`sqrt(gp.r / 255) · 255`; in particular a constant gloss of 64 produces
bump red 127. -/
theorem C2_gloss_curve (np : Pix) (g : ℕ) :
    (assembleBumpPixel false np g).r = ⌊Real.sqrt ((g : ℝ) / 255) * 255⌋₊ ∧
    (assembleBumpPixel false np 64).r = 127 := by
  constructor
  · have hcast : Real.sqrt ((g : ℝ) / 255) * 255 = Real.sqrt (((255 * g : ℕ) : ℝ)) := by
      rw [show (((255 * g : ℕ) : ℝ)) = (g : ℝ) / 255 * 255 ^ 2 by push_cast; ring]
      rw [Real.sqrt_mul (by positivity) ((255 : ℝ) ^ 2)]
      rw [Real.sqrt_sq (by norm_num)]
    show glossCurve g = _
    rw [hcast, Real.nat_floor_real_sqrt_eq_nat_sqrt]
    rfl
  · show glossCurve 64 = 127
    exact glossCurve_64

/-! ## C3 -/

/-- C3 counterexample.  With the gloss map absent, the gloss texture stays
in its zero-filled constructor state and the assembly still reads it, so
the assembled red byte of a `(200, 10, 20, 30)` normal pixel is
`glossCurve 0 = 0`, not the claimed unchanged normal red 200 (the
swizzle `g = np.b, b = np.g, a = np.r` does still apply). -/
theorem C3_missing_gloss_counterexample :
    ((assembleBumpMips false
        (normalMips (fun _ _ _ => []) ⟨4, 4, List.replicate 16 ⟨200, 10, 20, 30⟩⟩)
        (glossMips (fun _ _ _ => []) 4 4 (effectiveAux 4 4 none))).getD 0
      ⟨0, 0, []⟩).pixels.getD 0 ⟨0, 0, 0, 0⟩ = ⟨0, 20, 10, 200⟩ ∧ (0 : ℕ) ≠ 200 := by
  constructor
  · have h4 : textureMipSizes 4 4 = [(4, 4), (4, 4)] := by
      have : log2I 4 = 2 := by
        have s1 : log2I 4 = log2I 2 + 1 := log2I_step 4 (by omega)
        have s2 : log2I 2 = log2I 1 + 1 := log2I_step 2 (by omega)
        simp [s1, s2, log2I]
      simp [textureMipSizes, this, mipSizes, kMinMipSize]
    simp only [effectiveAux, glossMips, normalMips, mkTexture, h4, setMip0, List.map_cons,
      List.map_nil, buildMipchain, makeMipMono, makeMipRgba, List.length_cons, List.length_nil,
      List.map_nil]
    simp [assembleBumpMips, assembleBumpMipPixels, List.getD, assembleBumpPixel, glossCurve,
      List.range', List.set]
  · decide

/-- C3 (corrected).  Missing-gloss behaviour: when the gloss map is absent
(not provided, unreadable, or size-mismatched — `effectiveAux` yields
`none`), every gloss mip pixel is 0, and the assembly therefore produces
red = 0 (the gloss curve of 0, and also the linear gloss of 0) while the
swizzle `g = np.b, b = np.g, a = np.r` is still applied; red does NOT keep
the normal map's red byte. -/
theorem C3_missing_gloss (rm : Bmp ℕ → ℕ → ℕ → List ℕ) (w h : ℕ) (gl : Option (Bmp ℕ))
    (habs : effectiveAux w h gl = none) (i k : ℕ) :
    ((glossMips rm w h (effectiveAux w h gl)).getD i ⟨0, 0, []⟩).pixels.getD k 0 = 0 ∧
    ∀ (lg : Bool) (np : Pix), assembleBumpPixel lg np 0 = ⟨0, np.b, np.g, np.r⟩ := by
  constructor
  · rw [habs]
    show ((mkTexture (0 : ℕ) w h).getD i ⟨0, 0, []⟩).pixels.getD k 0 = 0
    exact zero_texture_pixels (textureMipSizes w h) i k
  · intro lg np
    cases lg <;> simp [assembleBumpPixel, glossCurve]

/-- Closed witness for `C3_missing_gloss`. -/
theorem C3_missing_gloss_witness :
    ((glossMips (fun _ _ _ => []) 4 4 (effectiveAux 4 4 none)).getD 0 ⟨0, 0, []⟩).pixels.getD 0 0 = 0 ∧
    ∀ (lg : Bool) (np : Pix), assembleBumpPixel lg np 0 = ⟨0, np.b, np.g, np.r⟩ :=
  C3_missing_gloss (fun _ _ _ => []) 4 4 none rfl 0 0

/-! ## C4 -/

/-- C4 counterexample.  The claim says renormalisation leaves the alpha
channel unchanged; the lambda value-initialises its result
(`T result = { 0 };`) and assigns only `r, g, b`, so a pixel whose alpha
was 77 after downsampling comes out with alpha 0. -/
theorem C4_normalize_alpha_counterexample :
    (normalizePixel ⟨128, 128, 255, 77⟩).a = 0 ∧ (0 : ℕ) ≠ 77 :=
  ⟨rfl, by decide⟩

/-- C4 (corrected).  Mip renormalisation effect on alpha: when
`MakeMip<PixelRgba, true>` renormalises the downsampled pixels, every
destination pixel's alpha channel is set to 0 (the lambda's
zero-initialised result pixel), not left at its downsampled value. -/
theorem C4_normalize_alpha (resample : Bmp Pix → ℕ → ℕ → List Pix) (src : Bmp Pix)
    (dw dh k : ℕ) (hk : k < (makeMipRgba resample true src dw dh).length) :
    ((makeMipRgba resample true src dw dh).getD k ⟨0, 0, 0, 0⟩).a = 0 := by
  have h1 : makeMipRgba resample true src dw dh = (resample src dw dh).map normalizePixel := rfl
  rw [h1] at hk ⊢
  rw [List.getD_eq_getElem _ _ hk]
  rw [List.getElem_map]
  exact normalizePixel_alpha _

/-- Closed witness for `C4_normalize_alpha`. -/
theorem C4_normalize_alpha_witness :
    ((makeMipRgba (fun _ _ _ => [⟨128, 128, 255, 77⟩]) true ⟨0, 0, []⟩ 1 1).getD 0
      ⟨0, 0, 0, 0⟩).a = 0 :=
  C4_normalize_alpha (fun _ _ _ => [⟨128, 128, 255, 77⟩]) ⟨0, 0, []⟩ 1 1 0
    (by simp [makeMipRgba])

/-! ## C5 -/

theorem length_mipSizes (w h n : ℕ) : (mipSizes w h n).length = n := by
  induction n generalizing w h with
  | zero => rfl
  | succ n ih => simp [mipSizes, ih]

theorem log2I_two_pow (k : ℕ) : log2I (2 ^ k) = k := by
  induction k with
  | zero =>
    rw [pow_zero]
    simp [log2I]
  | succ k ih =>
    have hpos : 0 < 2 ^ k := Nat.pow_pos (by omega)
    rw [log2I_step (2 ^ (k + 1)) (by rw [pow_succ]; omega)]
    rw [pow_succ, Nat.mul_div_cancel _ (by omega)]
    omega

theorem max_two_pow (a b : ℕ) : max (2 ^ a) (2 ^ b) = 2 ^ max a b := by
  rcases le_total a b with h | h
  · rw [max_eq_right (Nat.pow_le_pow_right (by omega) h), max_eq_right h]
  · rw [max_eq_left (Nat.pow_le_pow_right (by omega) h), max_eq_left h]

theorem mipSizes_getD (i : ℕ) : ∀ (a b n : ℕ), 2 ≤ a → 2 ≤ b → i < n →
    (mipSizes (2 ^ a) (2 ^ b) n).getD i (0, 0) =
      (max (2 ^ a >>> i) 4, max (2 ^ b >>> i) 4) := by
  induction i with
  | zero =>
    intro a b n ha hb hn
    obtain ⟨m, rfl⟩ : ∃ m, n = m + 1 := ⟨n - 1, by omega⟩
    show ((2 ^ a, 2 ^ b) : ℕ × ℕ) = _
    rw [Nat.shiftRight_zero, Nat.shiftRight_zero,
      max_eq_left (show 4 ≤ 2 ^ a from le_trans (by norm_num) (Nat.pow_le_pow_right (by omega) ha)),
      max_eq_left (show 4 ≤ 2 ^ b from le_trans (by norm_num) (Nat.pow_le_pow_right (by omega) hb))]
  | succ i ih =>
    intro a b n ha hb hn
    obtain ⟨m, rfl⟩ : ∃ m, n = m + 1 := ⟨n - 1, by omega⟩
    have hhalf : ∀ c : ℕ, 2 ≤ c → max (2 ^ c / 2) kMinMipSize = 2 ^ max (c - 1) 2 := by
      intro c hc
      obtain ⟨d, rfl⟩ : ∃ d, c = d + 1 := ⟨c - 1, by omega⟩
      simp only [kMinMipSize]
      rw [pow_succ, Nat.mul_div_cancel _ (by omega)]
      rcases le_or_lt 2 d with hd | hd
      · rw [max_eq_left (le_trans (by norm_num) (Nat.pow_le_pow_right (by omega) hd)),
          Nat.add_sub_cancel, max_eq_left hd]
      · have hd1 : d = 1 := by omega
        subst hd1
        norm_num
    have tail : (mipSizes (2 ^ a) (2 ^ b) (m + 1)).getD (i + 1) (0, 0) =
        (mipSizes (2 ^ max (a - 1) 2) (2 ^ max (b - 1) 2) m).getD i (0, 0) := by
      show (mipSizes (max (2 ^ a / 2) kMinMipSize) (max (2 ^ b / 2) kMinMipSize) m).getD i (0, 0) = _
      rw [hhalf a ha, hhalf b hb]
    rw [tail, ih (max (a - 1) 2) (max (b - 1) 2) m (le_max_right _ _) (le_max_right _ _) (by omega)]
    have hshift : ∀ c : ℕ, 2 ≤ c →
        max (2 ^ max (c - 1) 2 >>> i) 4 = max (2 ^ c >>> (i + 1)) 4 := by
      intro c hc
      rw [Nat.shiftRight_eq_div_pow, Nat.shiftRight_eq_div_pow]
      rcases le_or_lt 3 c with h3 | h3
      · rw [max_eq_left (show 2 ≤ c - 1 by omega)]
        have : 2 ^ c / 2 ^ (i + 1) = 2 ^ (c - 1) / 2 ^ i := by
          obtain ⟨d, rfl⟩ : ∃ d, c = d + 1 := ⟨c - 1, by omega⟩
          rw [pow_succ, pow_succ, Nat.add_sub_cancel, Nat.mul_comm (2 ^ d) 2,
            Nat.mul_comm (2 ^ i) 2, ← Nat.div_div_eq_div_mul, Nat.mul_div_cancel_left _ (by omega)]
        rw [this]
      · have hc2 : c = 2 := by omega
        subst hc2
        have e1 : (2 : ℕ) ^ 2 / 2 ^ (i + 1) ≤ 4 := le_trans (Nat.div_le_self _ _) (by norm_num)
        have e2 : (2 : ℕ) ^ max (2 - 1) 2 / 2 ^ i ≤ 4 :=
          le_trans (Nat.div_le_self _ _) (by norm_num)
        omega
    rw [hshift a ha, hshift b hb]

/-- C5 counterexample.  The claim's own example is wrong on the code:
`Log2I(max(256, 128)) = 8`, so a 256×128 base yields 8 mips (the last two
both saturate to 4×4), not 7; and for bases below the 4-pixel floor the
claimed dimension formula fails at mip 0, which the constructor emits
unclamped: `Texture(2, 2)` has mip 0 of width 2, not `max(2 >> 0, 4) = 4`. -/
theorem C5_pyramid_counterexample :
    (textureMipSizes 256 128).length ≠ 7 ∧
    (textureMipSizes 2 2).getD 0 (0, 0) ≠ (max (2 >>> 0) 4, max (2 >>> 0) 4) := by
  have h256 : log2I 256 = 8 := by
    have := log2I_two_pow 8
    norm_num at this
    exact this
  have h2 : log2I 2 = 1 := by
    have := log2I_two_pow 1
    norm_num at this
    exact this
  constructor
  · show (mipSizes 256 128 (log2I (max 256 128))).length ≠ 7
    rw [length_mipSizes]
    norm_num [h256]
  · have hval : (textureMipSizes 2 2).getD 0 (0, 0) = (2, 2) := by
      show (mipSizes 2 2 (log2I (max 2 2))).getD 0 (0, 0) = (2, 2)
      rw [show max 2 2 = 2 from rfl, h2]
      rfl
    rw [hval]
    decide

/-- C5 (corrected).  Pyramid shape invariant for bases that are powers of
two at or above the 4-pixel block floor (`W = 2^a, H = 2^b` with
`a, b ≥ 2`): the texture has exactly `floor(log2(max(W, H)))` mips, and
mip `i` has dimensions `(max(W >> i, 4), max(H >> i, 4))`.  (For bases
below 4 the constructor emits mip 0 at its unclamped size, and a 256×128
base yields 8 mips — dims (256,128), (128,64), (64,32), (32,16), (16,8),
(8,4), (4,4), (4,4) — not the 7 of the claim's example.) -/
theorem C5_pyramid_shape (a b : ℕ) (ha : 2 ≤ a) (hb : 2 ≤ b) :
    (textureMipSizes (2 ^ a) (2 ^ b)).length = Nat.log 2 (max (2 ^ a) (2 ^ b)) ∧
    ∀ i < (textureMipSizes (2 ^ a) (2 ^ b)).length,
      (textureMipSizes (2 ^ a) (2 ^ b)).getD i (0, 0) =
        (max (2 ^ a >>> i) 4, max (2 ^ b >>> i) 4) := by
  have hlen : (textureMipSizes (2 ^ a) (2 ^ b)).length = max a b := by
    show (mipSizes _ _ (log2I (max (2 ^ a) (2 ^ b)))).length = _
    rw [length_mipSizes, max_two_pow, log2I_two_pow]
  constructor
  · rw [hlen, max_two_pow, Nat.log_pow (by omega)]
  · intro i hi
    rw [hlen] at hi
    show (mipSizes (2 ^ a) (2 ^ b) (log2I (max (2 ^ a) (2 ^ b)))).getD i (0, 0) = _
    rw [max_two_pow, log2I_two_pow]
    exact mipSizes_getD i a b (max a b) ha hb hi

/-- Closed witness for `C5_pyramid_shape` at the 256×128 base of the
claim's example. -/
theorem C5_pyramid_shape_witness :
    (textureMipSizes (2 ^ 8) (2 ^ 7)).length = Nat.log 2 (max (2 ^ 8) (2 ^ 7)) ∧
    ∀ i < (textureMipSizes (2 ^ 8) (2 ^ 7)).length,
      (textureMipSizes (2 ^ 8) (2 ^ 7)).getD i (0, 0) =
        (max (2 ^ 8 >>> i) 4, max (2 ^ 7 >>> i) 4) :=
  C5_pyramid_shape 8 7 (by omega) (by omega)

/-! ## C9 -/

/-- C9 (confirmed).  Fatal validation: when the loaded normal map is
non-empty but its width or height is not a power of two, the driver
returns the fatal error (`return -1`) before any assembly, compression or
write — the result carries no output byte streams. -/
theorem C9_power_of_two_validation (rr : Bmp Pix → ℕ → ℕ → List Pix)
    (rm : Bmp ℕ → ℕ → ℕ → List ℕ) (be : List ℕ → List ℕ) (lg : Bool)
    (nm : Bmp Pix) (gl hl : Option (Bmp ℕ)) (hne : nm.pixels ≠ [])
    (hpow : isPowerOfTwo nm.width = false ∨ isPowerOfTwo nm.height = false) :
    runPipeline rr rm be lg nm gl hl = .error .notPowerOfTwo := by
  have hemp : nm.pixels.isEmpty = false := by
    simp [List.isEmpty_iff, hne]
  have hcond : (!isPowerOfTwo nm.width || !isPowerOfTwo nm.height) = true := by
    rcases hpow with h | h <;> simp [h]
  simp [runPipeline, hemp, hcond]

/-- Closed witness for `C9_power_of_two_validation` at the claim's
100×100 input. -/
theorem C9_power_of_two_validation_witness :
    runPipeline (fun _ _ _ => []) (fun _ _ _ => []) (fun _ => []) false
      ⟨100, 100, List.replicate 10000 ⟨0, 0, 0, 0⟩⟩ none none = .error .notPowerOfTwo :=
  C9_power_of_two_validation (fun _ _ _ => []) (fun _ _ _ => []) (fun _ => []) false
    ⟨100, 100, List.replicate 10000 ⟨0, 0, 0, 0⟩⟩ none none
    (by
      intro hcontra
      have h1 := congrArg List.length hcontra
      rw [List.length_replicate, List.length_nil] at h1
      exact absurd h1 (by norm_num))
    (Or.inl (by decide))

/-! ## C8 -/

theorem readU32_u32le (v : ℕ) (rest : List ℕ) (hv : v < 2 ^ 32) :
    readU32 (u32le v ++ rest) 0 = v := by
  have key : readU32 (u32le v ++ rest) 0 =
      v % 256 + 256 * ((v >>> 8) % 256) + 65536 * ((v >>> 16) % 256) +
        16777216 * ((v >>> 24) % 256) := rfl
  rw [key]
  simp only [Nat.shiftRight_eq_div_pow]
  omega

theorem getD_u32le_append (v : ℕ) (rest : List ℕ) (t : ℕ) :
    (u32le v ++ rest).getD (4 + t) 0 = rest.getD t 0 := by
  show ((v % 256) :: ((v >>> 8) % 256) :: ((v >>> 16) % 256) :: ((v >>> 24) % 256) ::
      rest).getD (4 + t) 0 = rest.getD t 0
  rw [show 4 + t = (((t + 1) + 1) + 1) + 1 by omega]
  rw [List.getD_cons_succ, List.getD_cons_succ, List.getD_cons_succ, List.getD_cons_succ]

theorem readU32_skip4 (v : ℕ) (rest : List ℕ) (j : ℕ) :
    readU32 (u32le v ++ rest) (4 + j) = readU32 rest j := by
  show (u32le v ++ rest).getD (4 + j) 0 + 256 * (u32le v ++ rest).getD (4 + j + 1) 0 +
      65536 * (u32le v ++ rest).getD (4 + j + 2) 0 +
      16777216 * (u32le v ++ rest).getD (4 + j + 3) 0 = readU32 rest j
  rw [show 4 + j + 1 = 4 + (j + 1) by omega, show 4 + j + 2 = 4 + (j + 2) by omega,
    show 4 + j + 3 = 4 + (j + 3) by omega]
  rw [getD_u32le_append, getD_u32le_append, getD_u32le_append, getD_u32le_append]
  rfl

theorem readU32_words (vs : List ℕ) : ∀ (rest : List ℕ) (k off : ℕ), off = 4 * k →
    k < vs.length → vs.getD k 0 < 2 ^ 32 →
    readU32 ((vs.map u32le).flatten ++ rest) off = vs.getD k 0 := by
  induction vs with
  | nil =>
    intro rest k off _ hk _
    rw [List.length_nil] at hk
    omega
  | cons v vs ih =>
    intro rest k off hoff hk hv
    subst hoff
    have hshape : ((List.map u32le (v :: vs)).flatten ++ rest) =
        u32le v ++ ((List.map u32le vs).flatten ++ rest) := by
      simp [List.append_assoc]
    rw [hshape]
    cases k with
    | zero =>
      rw [List.getD_cons_zero] at hv ⊢
      exact readU32_u32le v _ hv
    | succ k =>
      rw [show 4 * (k + 1) = 4 + 4 * k by omega, readU32_skip4]
      rw [List.getD_cons_succ] at hv ⊢
      exact ih rest k (4 * k) rfl (by simpa using hk) hv

theorem ddsHeaderBytes_length (w h n : ℕ) : (ddsHeaderBytes w h n).length = 128 := by
  simp [ddsHeaderBytes, ddsHeaderWords, u32le]

/-- C8 counterexample.  The claim lists the nonzero header fields and says
"all other header fields zero", but it omits `ddpf.dwFlags`: the code sets
it to `DDPF_FOURCC = 0x00000004`, so the `uint32` at byte offset 80 of the
written file is 4, not 0. -/
theorem C8_dds_counterexample :
    readU32 (saveAsDDS [List.replicate 16 0] 4 4) 80 = 4 ∧ (4 : ℕ) ≠ 0 := by
  constructor
  · show readU32 ((((ddsHeaderWords 4 4 [List.replicate 16 (0 : ℕ)].length).map u32le).flatten) ++
      [List.replicate 16 (0 : ℕ)].flatten) 80 = 4
    rw [readU32_words _ _ 20 80 (by norm_num) (by norm_num [ddsHeaderWords]) (by decide)]
    rfl
  · decide

/-- C8 (corrected).  DDS writer layout: the magic is `"DDS "`
(`0x20534444` little-endian at bytes 0..3), the header is exactly 128
bytes, `dwSize = 124` at offset 4, `dwFlags = 0x21007`, `dwHeight = H` at
offset 12, `dwWidth = W` at offset 16, `dwMipMapCount = N` at offset 28,
`ddpf.dwSize = 32`, `ddpf.dwFlags = 0x00000004` (the field the claim
omitted from its nonzero list), `ddpf.dwFourCC = "DXT5"` (`0x35545844` at
bytes 84..87), `ddsCaps.dwCaps = 0x00401000`; every remaining header field
is zero; the payload follows at byte 128 as the mip payloads concatenated
in order, and with each payload sized `(w_i/4)·(h_i/4)·16` the total
length is `128 + Σ (w_i/4)·(h_i/4)·16`. -/
theorem C8_dds_layout (mips : List (List ℕ)) (w h : ℕ) (sizes : List (ℕ × ℕ))
    (hw : w < 2 ^ 32) (hh : h < 2 ^ 32) (hn : mips.length < 2 ^ 32)
    (hsz : mips.map List.length = sizes.map (fun p => p.1 / 4 * (p.2 / 4) * 16)) :
    (ddsHeaderBytes w h mips.length).length = 128 ∧
    readU32 (saveAsDDS mips w h) 0 = 0x20534444 ∧
    readU32 (saveAsDDS mips w h) 4 = 124 ∧
    readU32 (saveAsDDS mips w h) 8 = 0x00021007 ∧
    readU32 (saveAsDDS mips w h) 12 = h ∧
    readU32 (saveAsDDS mips w h) 16 = w ∧
    readU32 (saveAsDDS mips w h) 28 = mips.length ∧
    readU32 (saveAsDDS mips w h) 76 = 32 ∧
    readU32 (saveAsDDS mips w h) 80 = 4 ∧
    readU32 (saveAsDDS mips w h) 84 = 0x35545844 ∧
    readU32 (saveAsDDS mips w h) 108 = 0x00401000 ∧
    (∀ off ∈ [20, 24, 32, 36, 40, 44, 48, 52, 56, 60, 64, 68, 72, 88, 92, 96,
        100, 104, 112, 116, 120, 124], readU32 (saveAsDDS mips w h) off = 0) ∧
    (saveAsDDS mips w h).drop 128 = mips.flatten ∧
    (saveAsDDS mips w h).length =
      128 + (sizes.map (fun p => p.1 / 4 * (p.2 / 4) * 16)).sum := by
  have hfield : ∀ k off : ℕ, off = 4 * k → k < (ddsHeaderWords w h mips.length).length →
      (ddsHeaderWords w h mips.length).getD k 0 < 2 ^ 32 →
      readU32 (saveAsDDS mips w h) off = (ddsHeaderWords w h mips.length).getD k 0 := by
    intro k off hoff hk hv
    show readU32 (((ddsHeaderWords w h mips.length).map u32le).flatten ++ mips.flatten) off = _
    exact readU32_words _ _ k off hoff hk hv
  have hwords : (ddsHeaderWords w h mips.length).length = 32 := by
    simp [ddsHeaderWords]
  refine ⟨ddsHeaderBytes_length w h mips.length, ?_, ?_, ?_, ?_, ?_, ?_, ?_, ?_, ?_, ?_, ?_, ?_, ?_⟩
  · exact hfield 0 0 (by norm_num) (by omega) (by norm_num [ddsHeaderWords])
  · exact hfield 1 4 (by norm_num) (by omega) (by norm_num [ddsHeaderWords])
  · exact hfield 2 8 (by norm_num) (by omega) (by norm_num [ddsHeaderWords])
  · exact hfield 3 12 (by norm_num) (by omega) (by simpa [ddsHeaderWords] using hh)
  · exact hfield 4 16 (by norm_num) (by omega) (by simpa [ddsHeaderWords] using hw)
  · exact hfield 7 28 (by norm_num) (by omega) (by simpa [ddsHeaderWords] using hn)
  · exact hfield 19 76 (by norm_num) (by omega) (by norm_num [ddsHeaderWords])
  · exact hfield 20 80 (by norm_num) (by omega) (by norm_num [ddsHeaderWords])
  · exact hfield 21 84 (by norm_num) (by omega) (by norm_num [ddsHeaderWords])
  · exact hfield 27 108 (by norm_num) (by omega) (by norm_num [ddsHeaderWords])
  · intro off hoff
    fin_cases hoff
    · exact hfield 5 20 (by norm_num) (by omega) (by norm_num [ddsHeaderWords])
    · exact hfield 6 24 (by norm_num) (by omega) (by norm_num [ddsHeaderWords])
    · exact hfield 8 32 (by norm_num) (by omega) (by norm_num [ddsHeaderWords])
    · exact hfield 9 36 (by norm_num) (by omega) (by norm_num [ddsHeaderWords])
    · exact hfield 10 40 (by norm_num) (by omega) (by norm_num [ddsHeaderWords])
    · exact hfield 11 44 (by norm_num) (by omega) (by norm_num [ddsHeaderWords])
    · exact hfield 12 48 (by norm_num) (by omega) (by norm_num [ddsHeaderWords])
    · exact hfield 13 52 (by norm_num) (by omega) (by norm_num [ddsHeaderWords])
    · exact hfield 14 56 (by norm_num) (by omega) (by norm_num [ddsHeaderWords])
    · exact hfield 15 60 (by norm_num) (by omega) (by norm_num [ddsHeaderWords])
    · exact hfield 16 64 (by norm_num) (by omega) (by norm_num [ddsHeaderWords])
    · exact hfield 17 68 (by norm_num) (by omega) (by norm_num [ddsHeaderWords])
    · exact hfield 18 72 (by norm_num) (by omega) (by norm_num [ddsHeaderWords])
    · exact hfield 22 88 (by norm_num) (by omega) (by norm_num [ddsHeaderWords])
    · exact hfield 23 92 (by norm_num) (by omega) (by norm_num [ddsHeaderWords])
    · exact hfield 24 96 (by norm_num) (by omega) (by norm_num [ddsHeaderWords])
    · exact hfield 25 100 (by norm_num) (by omega) (by norm_num [ddsHeaderWords])
    · exact hfield 26 104 (by norm_num) (by omega) (by norm_num [ddsHeaderWords])
    · exact hfield 28 112 (by norm_num) (by omega) (by norm_num [ddsHeaderWords])
    · exact hfield 29 116 (by norm_num) (by omega) (by norm_num [ddsHeaderWords])
    · exact hfield 30 120 (by norm_num) (by omega) (by norm_num [ddsHeaderWords])
    · exact hfield 31 124 (by norm_num) (by omega) (by norm_num [ddsHeaderWords])
  · show (ddsHeaderBytes w h mips.length ++ mips.flatten).drop 128 = mips.flatten
    rw [← ddsHeaderBytes_length w h mips.length]
    exact List.drop_left _ _
  · show (ddsHeaderBytes w h mips.length ++ mips.flatten).length = _
    rw [List.length_append, ddsHeaderBytes_length, List.length_flatten, hsz]

/-- Closed witness for `C8_dds_layout` with one 4×4 mip payload. -/
theorem C8_dds_layout_witness :
    (ddsHeaderBytes 4 4 [List.replicate 16 (0 : ℕ)].length).length = 128 ∧
    readU32 (saveAsDDS [List.replicate 16 0] 4 4) 0 = 0x20534444 ∧
    readU32 (saveAsDDS [List.replicate 16 0] 4 4) 4 = 124 ∧
    readU32 (saveAsDDS [List.replicate 16 0] 4 4) 8 = 0x00021007 ∧
    readU32 (saveAsDDS [List.replicate 16 0] 4 4) 12 = 4 ∧
    readU32 (saveAsDDS [List.replicate 16 0] 4 4) 16 = 4 ∧
    readU32 (saveAsDDS [List.replicate 16 0] 4 4) 28 = [List.replicate 16 (0 : ℕ)].length ∧
    readU32 (saveAsDDS [List.replicate 16 0] 4 4) 76 = 32 ∧
    readU32 (saveAsDDS [List.replicate 16 0] 4 4) 80 = 4 ∧
    readU32 (saveAsDDS [List.replicate 16 0] 4 4) 84 = 0x35545844 ∧
    readU32 (saveAsDDS [List.replicate 16 0] 4 4) 108 = 0x00401000 ∧
    (∀ off ∈ [20, 24, 32, 36, 40, 44, 48, 52, 56, 60, 64, 68, 72, 88, 92, 96,
        100, 104, 112, 116, 120, 124],
      readU32 (saveAsDDS [List.replicate 16 0] 4 4) off = 0) ∧
    (saveAsDDS [List.replicate 16 0] 4 4).drop 128 = [List.replicate 16 (0 : ℕ)].flatten ∧
    (saveAsDDS [List.replicate 16 0] 4 4).length =
      128 + (([((4 : ℕ), (4 : ℕ))]).map (fun p => p.1 / 4 * (p.2 / 4) * 16)).sum :=
  C8_dds_layout [List.replicate 16 0] 4 4 [(4, 4)] (by norm_num) (by norm_num)
    (by norm_num) (by norm_num)

/-! ## BC3 decoder lemmas -/

theorem decColorRow_frame (xOff : ℕ) (colors : ℕ → ℕ × ℕ × ℕ) :
    ∀ (w : ℕ) (f : ℕ → ℕ) (addr indexes t : ℕ),
    (∀ x < w, ∀ c < 3, t ≠ addr + xOff * x + c) →
    decColorRow xOff colors f addr indexes w t = f t := by
  intro w
  induction w with
  | zero => intro f addr idx t _; rfl
  | succ w ih =>
    intro f addr idx t hmiss
    simp only [decColorRow]
    have hrest : ∀ x < w, ∀ c < 3, t ≠ (addr + xOff) + xOff * x + c := by
      intro x hx c hc
      have hm := hmiss (x + 1) (by omega) c hc
      rw [Nat.mul_succ] at hm
      omega
    rw [ih _ _ _ _ hrest]
    have n0 := hmiss 0 (by omega) 0 (by omega)
    have n1 := hmiss 0 (by omega) 1 (by omega)
    have n2 := hmiss 0 (by omega) 2 (by omega)
    rw [Nat.mul_zero] at n0 n1 n2
    simp only [writeRGB]
    rw [if_neg (by omega), if_neg (by omega), if_neg (by omega)]

theorem decColorRow_value (xOff : ℕ) (hxOff : 3 ≤ xOff) (colors : ℕ → ℕ × ℕ × ℕ) :
    ∀ (w : ℕ) (f : ℕ → ℕ) (addr indexes x c : ℕ), x < w → c < 3 →
    decColorRow xOff colors f addr indexes w (addr + xOff * x + c) =
      rgbComp (colors ((indexes >>> (2 * x)) &&& 3)) c := by
  intro w
  induction w with
  | zero => intro f addr idx x c hx hc; omega
  | succ w ih =>
    intro f addr idx x c hx hc
    simp only [decColorRow]
    cases x with
    | zero =>
      rw [decColorRow_frame xOff colors w _ _ _ _ ?frame]
      case frame =>
        intro x' hx' c' hc'
        have hz : xOff * 0 = 0 := Nat.mul_zero xOff
        omega
      simp only [Nat.mul_zero, Nat.add_zero, Nat.shiftRight_zero]
      interval_cases c <;> simp [writeRGB, rgbComp]
    | succ x =>
      have haddr : addr + xOff * (x + 1) + c = (addr + xOff) + xOff * x + c := by
        rw [Nat.mul_succ]
        omega
      rw [haddr, ih _ _ _ x c (by omega) hc]
      have hidx : (idx >>> 2) >>> (2 * x) = idx >>> (2 * (x + 1)) := by
        rw [← Nat.shiftRight_add]
        congr 1
        omega
      rw [hidx]

theorem decColorRows_frame (xOff yOff w : ℕ) (colors : ℕ → ℕ × ℕ × ℕ) :
    ∀ (rows : List ℕ) (f : ℕ → ℕ) (base y t : ℕ),
    (∀ j < rows.length, ∀ x < w, ∀ c < 3, t ≠ base + yOff * (y + j) + xOff * x + c) →
    decColorRows xOff yOff w colors f base y rows t = f t := by
  intro rows
  induction rows with
  | nil => intro f base y t _; rfl
  | cons r rest ih =>
    intro f base y t hmiss
    simp only [decColorRows]
    have hrest : ∀ j < rest.length, ∀ x < w, ∀ c < 3,
        t ≠ base + yOff * ((y + 1) + j) + xOff * x + c := by
      intro j hj x hx c hc
      have hm := hmiss (j + 1) (by rw [List.length_cons]; omega) x hx c hc
      have e : y + (j + 1) = (y + 1) + j := by omega
      rw [e] at hm
      exact hm
    rw [ih _ _ _ _ hrest]
    refine decColorRow_frame xOff colors w f _ r t ?_
    intro x hx c hc
    have hm := hmiss 0 (by rw [List.length_cons]; omega) x hx c hc
    rw [Nat.add_zero] at hm
    exact hm

theorem decColorRows_value (xOff yOff w : ℕ) (hxOff : 3 ≤ xOff) (hwy : xOff * w ≤ yOff)
    (colors : ℕ → ℕ × ℕ × ℕ) :
    ∀ (rows : List ℕ) (f : ℕ → ℕ) (base y j x c : ℕ), j < rows.length → x < w → c < 3 →
    decColorRows xOff yOff w colors f base y rows (base + yOff * (y + j) + xOff * x + c) =
      rgbComp (colors ((rows.getD j 0 >>> (2 * x)) &&& 3)) c := by
  intro rows
  induction rows with
  | nil =>
    intro f base y j x c hj _ _
    rw [List.length_nil] at hj
    omega
  | cons r rest ih =>
    intro f base y j x c hj hx hc
    simp only [decColorRows]
    cases j with
    | zero =>
      rw [List.getD_cons_zero, Nat.add_zero y]
      rw [decColorRows_frame xOff yOff w colors rest _ base (y + 1) _ ?hmiss]
      case hmiss =>
        intro j' hj' x' hx' c' hc'
        have h1 : xOff * x + xOff ≤ xOff * w := by
          have hmul := Nat.mul_le_mul_left xOff (show x + 1 ≤ w by omega)
          rw [Nat.mul_succ] at hmul
          exact hmul
        have h2 : yOff * (y + 1 + j') = yOff * y + yOff + yOff * j' := by ring
        omega
      exact decColorRow_value xOff hxOff colors w f _ r x c hx hc
    | succ j =>
      rw [List.getD_cons_succ]
      have e : y + (j + 1) = (y + 1) + j := by omega
      rw [e]
      exact ih _ base (y + 1) j x c (by rw [List.length_cons] at hj; omega) hx hc

theorem getD_drop_take (src : List ℕ) (n m j : ℕ) (hj : j < m) :
    ((src.drop n).take m).getD j 0 = src.getD (n + j) 0 := by
  rw [List.getD_eq_getElem?_getD, List.getD_eq_getElem?_getD]
  rw [List.getElem?_take, if_pos hj, List.getElem?_drop]

theorem decodeBCColorBlock_value (isBC3 : Bool) (src : List ℕ) (f : ℕ → ℕ)
    (base yOff x y c : ℕ) (hsrc : src.length = 8) (hyOff : 16 ≤ yOff)
    (hx : x < 4) (hy : y < 4) (hc : c < 3) :
    decodeBCColorBlock isBC3 f base 4 4 4 yOff src (base + yOff * y + 4 * x + c) =
      rgbComp (bcColors isBC3 (src.getD 0 0 + 256 * src.getD 1 0)
        (src.getD 2 0 + 256 * src.getD 3 0) ((src.getD (4 + y) 0 >>> (2 * x)) &&& 3)) c := by
  simp only [decodeBCColorBlock]
  have hrows : ((src.drop 4).take 4).length = 4 := by
    rw [List.length_take, List.length_drop, hsrc]
    omega
  have hval := decColorRows_value 4 yOff 4 (by omega) (by omega)
    (bcColors isBC3 (src.getD 0 0 + 256 * src.getD 1 0) (src.getD 2 0 + 256 * src.getD 3 0))
    ((src.drop 4).take 4) f base 0 y x c (by rw [hrows]; exact hy) hx hc
  rw [Nat.zero_add] at hval
  rw [hval, getD_drop_take src 4 4 y hy]

theorem decodeBCColorBlock_frame (isBC3 : Bool) (src : List ℕ) (f : ℕ → ℕ)
    (base yOff t : ℕ)
    (hmiss : ∀ y' < 4, ∀ x' < 4, ∀ c < 3, t ≠ base + yOff * y' + 4 * x' + c) :
    decodeBCColorBlock isBC3 f base 4 4 4 yOff src t = f t := by
  simp only [decodeBCColorBlock]
  refine decColorRows_frame 4 yOff 4 _ _ f base 0 t ?_
  intro j hj x hx c hc
  have hlen : ((src.drop 4).take 4).length ≤ 4 := by
    rw [List.length_take]
    omega
  have hm := hmiss j (by omega) x hx c hc
  rw [Nat.zero_add]
  exact hm

theorem decAlphaRow_bits (xOff a0 a1 : ℕ) :
    ∀ (w : ℕ) (f : ℕ → ℕ) (addr bits : ℕ),
    (decAlphaRow xOff a0 a1 f addr bits w).2 = bits >>> (3 * w) := by
  intro w
  induction w with
  | zero =>
    intro f addr bits
    simp [decAlphaRow]
  | succ w ih =>
    intro f addr bits
    simp only [decAlphaRow]
    rw [ih]
    rw [← Nat.shiftRight_add]
    congr 1
    omega

theorem decAlphaRow_frame (xOff a0 a1 : ℕ) :
    ∀ (w : ℕ) (f : ℕ → ℕ) (addr bits t : ℕ), (∀ x < w, t ≠ addr + xOff * x) →
    (decAlphaRow xOff a0 a1 f addr bits w).1 t = f t := by
  intro w
  induction w with
  | zero => intro f addr bits t _; rfl
  | succ w ih =>
    intro f addr bits t hmiss
    simp only [decAlphaRow]
    have hrest : ∀ x < w, t ≠ (addr + xOff) + xOff * x := by
      intro x hx
      have hm := hmiss (x + 1) (by omega)
      rw [Nat.mul_succ] at hm
      omega
    rw [ih _ _ _ _ hrest]
    have n0 := hmiss 0 (by omega)
    rw [Nat.mul_zero] at n0
    simp only [upd]
    rw [if_neg (by omega)]

theorem decAlphaRow_value (xOff a0 a1 : ℕ) (hxOff : 1 ≤ xOff) :
    ∀ (w : ℕ) (f : ℕ → ℕ) (addr bits x : ℕ), x < w →
    (decAlphaRow xOff a0 a1 f addr bits w).1 (addr + xOff * x) =
      bc3AlphaValue a0 a1 ((bits >>> (3 * x)) &&& 7) := by
  intro w
  induction w with
  | zero => intro f addr bits x hx; omega
  | succ w ih =>
    intro f addr bits x hx
    simp only [decAlphaRow]
    cases x with
    | zero =>
      rw [decAlphaRow_frame xOff a0 a1 w _ _ _ _ ?frame]
      case frame =>
        intro x' hx'
        have hz : xOff * 0 = 0 := Nat.mul_zero xOff
        omega
      simp only [Nat.mul_zero, Nat.add_zero, Nat.shiftRight_zero]
      simp [upd]
    | succ x =>
      have haddr : addr + xOff * (x + 1) = (addr + xOff) + xOff * x := by
        rw [Nat.mul_succ]
        omega
      rw [haddr, ih _ _ _ x (by omega)]
      have hbits : (bits >>> 3) >>> (3 * x) = bits >>> (3 * (x + 1)) := by
        rw [← Nat.shiftRight_add]
        congr 1
        omega
      rw [hbits]

theorem decAlphaRows4_frame (xOff yOff a0 a1 : ℕ) :
    ∀ (h : ℕ) (f : ℕ → ℕ) (base y bits t : ℕ),
    (∀ j < h, ∀ x < 4, t ≠ base + yOff * (y + j) + xOff * x) →
    decAlphaRows xOff yOff 4 a0 a1 f base y bits h t = f t := by
  intro h
  induction h with
  | zero => intro f base y bits t _; rfl
  | succ h ih =>
    intro f base y bits t hmiss
    simp only [decAlphaRows]
    have hrest : ∀ j < h, ∀ x < 4,
        t ≠ base + yOff * ((y + 1) + j) + xOff * x := by
      intro j hj x hx
      have hm := hmiss (j + 1) (by omega) x hx
      have e : y + (j + 1) = (y + 1) + j := by omega
      rw [e] at hm
      exact hm
    rw [ih _ _ _ _ _ hrest]
    refine decAlphaRow_frame xOff a0 a1 4 f _ bits t ?_
    intro x hx
    have hm := hmiss 0 (by omega) x hx
    rw [Nat.add_zero] at hm
    exact hm

theorem decAlphaRows4_value (xOff yOff a0 a1 : ℕ) (hxOff : 1 ≤ xOff)
    (hwy : xOff * 4 ≤ yOff) :
    ∀ (h : ℕ) (f : ℕ → ℕ) (base y bits j x : ℕ), j < h → x < 4 →
    decAlphaRows xOff yOff 4 a0 a1 f base y bits h (base + yOff * (y + j) + xOff * x) =
      bc3AlphaValue a0 a1 ((bits >>> (3 * (4 * j + x))) &&& 7) := by
  intro h
  induction h with
  | zero => intro f base y bits j x hj hx; omega
  | succ h ih =>
    intro f base y bits j x hj hx
    simp only [decAlphaRows]
    cases j with
    | zero =>
      rw [Nat.add_zero y]
      rw [decAlphaRows4_frame xOff yOff a0 a1 h _ base (y + 1) _ _ ?hmiss]
      case hmiss =>
        intro j' hj' x' hx'
        have h1 : xOff * x + xOff ≤ xOff * 4 := by
          have hmul := Nat.mul_le_mul_left xOff (show x + 1 ≤ 4 by omega)
          rw [Nat.mul_succ] at hmul
          exact hmul
        have h2 : yOff * (y + 1 + j') = yOff * y + yOff + yOff * j' := by ring
        omega
      have hv := decAlphaRow_value xOff a0 a1 hxOff 4 f (base + yOff * y) bits x hx
      rw [hv]
      have e : 4 * 0 + x = x := by omega
      rw [e]
    | succ j =>
      have e : y + (j + 1) = (y + 1) + j := by omega
      rw [e]
      rw [if_neg (by omega), decAlphaRow_bits]
      rw [ih _ base (y + 1) _ j x (by omega) hx]
      have hbits : (bits >>> (3 * 4)) >>> (3 * (4 * j + x)) =
          bits >>> (3 * (4 * (j + 1) + x)) := by
        rw [← Nat.shiftRight_add]
        congr 1
        omega
      rw [hbits]

/-! ## C6 -/

/-- C6 (confirmed).  Color sub-block decoder in BC3 mode: the RGB565
endpoints are little-endian `uint16` loads of the first four bytes and
expand by pure shifts (5-bit fields `<< 3`, the 6-bit field `<< 2`, no
low-bit replication); the two interpolants are always the thirds-points
`(2·c0 + c1 + 1)/3` and `(c0 + 2·c1 + 1)/3` per expanded channel
regardless of whether `c0 > c1`; each of the 16 pixels receives
`colors[index]` in its RGB bytes, the index being the 2-bit field of the
row's index byte; and when every index byte is zero, every pixel's RGB is
the expanded `c0`. -/
theorem C6_color_subblock (src : List ℕ) (f : ℕ → ℕ) (base yOff x y c : ℕ)
    (hsrc : src.length = 8) (hyOff : 16 ≤ yOff) (hx : x < 4) (hy : y < 4) (hc : c < 3) :
    (decodeBCColorBlock true f base 4 4 4 yOff src (base + yOff * y + 4 * x + c) =
      rgbComp (bcColors true (src.getD 0 0 + 256 * src.getD 1 0)
        (src.getD 2 0 + 256 * src.getD 3 0)
        ((src.getD (4 + y) 0 >>> (2 * x)) &&& 3)) c) ∧
    (∀ c0 c1 : ℕ,
      bcColors true c0 c1 0 =
        (((c0 >>> 11) &&& 0x1F) <<< 3, ((c0 >>> 5) &&& 0x3F) <<< 2, (c0 &&& 0x1F) <<< 3) ∧
      bcColors true c0 c1 1 =
        (((c1 >>> 11) &&& 0x1F) <<< 3, ((c1 >>> 5) &&& 0x3F) <<< 2, (c1 &&& 0x1F) <<< 3) ∧
      bcColors true c0 c1 2 =
        ((2 * (((c0 >>> 11) &&& 0x1F) <<< 3) + (((c1 >>> 11) &&& 0x1F) <<< 3) + 1) / 3,
         (2 * (((c0 >>> 5) &&& 0x3F) <<< 2) + (((c1 >>> 5) &&& 0x3F) <<< 2) + 1) / 3,
         (2 * ((c0 &&& 0x1F) <<< 3) + ((c1 &&& 0x1F) <<< 3) + 1) / 3) ∧
      bcColors true c0 c1 3 =
        (((((c0 >>> 11) &&& 0x1F) <<< 3) + 2 * (((c1 >>> 11) &&& 0x1F) <<< 3) + 1) / 3,
         ((((c0 >>> 5) &&& 0x3F) <<< 2) + 2 * (((c1 >>> 5) &&& 0x3F) <<< 2) + 1) / 3,
         (((c0 &&& 0x1F) <<< 3) + 2 * ((c1 &&& 0x1F) <<< 3) + 1) / 3)) ∧
    ((∀ j, 4 ≤ j → j < 8 → src.getD j 0 = 0) →
      decodeBCColorBlock true f base 4 4 4 yOff src (base + yOff * y + 4 * x + c) =
        rgbComp ((((src.getD 0 0 + 256 * src.getD 1 0) >>> 11) &&& 0x1F) <<< 3,
          (((src.getD 0 0 + 256 * src.getD 1 0) >>> 5) &&& 0x3F) <<< 2,
          ((src.getD 0 0 + 256 * src.getD 1 0) &&& 0x1F) <<< 3) c) := by
  refine ⟨decodeBCColorBlock_value true src f base yOff x y c hsrc hyOff hx hy hc, ?_, ?_⟩
  · intro c0 c1
    refine ⟨rfl, rfl, ?_, ?_⟩
    · simp [bcColors]
    · simp [bcColors]
  · intro hz
    rw [decodeBCColorBlock_value true src f base yOff x y c hsrc hyOff hx hy hc]
    rw [hz (4 + y) (by omega) (by omega)]
    rw [Nat.zero_shiftRight]
    rw [show (0 : ℕ) &&& 3 = 0 from rfl]
    rfl

/-- Closed witness for `C6_color_subblock`: endpoints `c0 = 0xF800`
(pure red), `c1 = 0x07E0` (pure green), all indices 0, pixel (0,0),
channel red. -/
theorem C6_color_subblock_witness :
    (decodeBCColorBlock true (fun _ => 9) 0 4 4 4 16 [0x00, 0xF8, 0xE0, 0x07, 0, 0, 0, 0]
        (0 + 16 * 0 + 4 * 0 + 0) =
      rgbComp (bcColors true
        (([0x00, 0xF8, 0xE0, 0x07, 0, 0, 0, 0] : List ℕ).getD 0 0 +
          256 * ([0x00, 0xF8, 0xE0, 0x07, 0, 0, 0, 0] : List ℕ).getD 1 0)
        (([0x00, 0xF8, 0xE0, 0x07, 0, 0, 0, 0] : List ℕ).getD 2 0 +
          256 * ([0x00, 0xF8, 0xE0, 0x07, 0, 0, 0, 0] : List ℕ).getD 3 0)
        ((([0x00, 0xF8, 0xE0, 0x07, 0, 0, 0, 0] : List ℕ).getD (4 + 0) 0 >>> (2 * 0)) &&& 3)) 0) ∧
    (∀ c0 c1 : ℕ,
      bcColors true c0 c1 0 =
        (((c0 >>> 11) &&& 0x1F) <<< 3, ((c0 >>> 5) &&& 0x3F) <<< 2, (c0 &&& 0x1F) <<< 3) ∧
      bcColors true c0 c1 1 =
        (((c1 >>> 11) &&& 0x1F) <<< 3, ((c1 >>> 5) &&& 0x3F) <<< 2, (c1 &&& 0x1F) <<< 3) ∧
      bcColors true c0 c1 2 =
        ((2 * (((c0 >>> 11) &&& 0x1F) <<< 3) + (((c1 >>> 11) &&& 0x1F) <<< 3) + 1) / 3,
         (2 * (((c0 >>> 5) &&& 0x3F) <<< 2) + (((c1 >>> 5) &&& 0x3F) <<< 2) + 1) / 3,
         (2 * ((c0 &&& 0x1F) <<< 3) + ((c1 &&& 0x1F) <<< 3) + 1) / 3) ∧
      bcColors true c0 c1 3 =
        (((((c0 >>> 11) &&& 0x1F) <<< 3) + 2 * (((c1 >>> 11) &&& 0x1F) <<< 3) + 1) / 3,
         ((((c0 >>> 5) &&& 0x3F) <<< 2) + 2 * (((c1 >>> 5) &&& 0x3F) <<< 2) + 1) / 3,
         (((c0 &&& 0x1F) <<< 3) + 2 * ((c1 &&& 0x1F) <<< 3) + 1) / 3)) ∧
    ((∀ j, 4 ≤ j → j < 8 → ([0x00, 0xF8, 0xE0, 0x07, 0, 0, 0, 0] : List ℕ).getD j 0 = 0) →
      decodeBCColorBlock true (fun _ => 9) 0 4 4 4 16 [0x00, 0xF8, 0xE0, 0x07, 0, 0, 0, 0]
          (0 + 16 * 0 + 4 * 0 + 0) =
        rgbComp (((([0x00, 0xF8, 0xE0, 0x07, 0, 0, 0, 0] : List ℕ).getD 0 0 +
            256 * ([0x00, 0xF8, 0xE0, 0x07, 0, 0, 0, 0] : List ℕ).getD 1 0) >>> 11 &&& 0x1F) <<< 3,
          ((([0x00, 0xF8, 0xE0, 0x07, 0, 0, 0, 0] : List ℕ).getD 0 0 +
            256 * ([0x00, 0xF8, 0xE0, 0x07, 0, 0, 0, 0] : List ℕ).getD 1 0) >>> 5 &&& 0x3F) <<< 2,
          ((([0x00, 0xF8, 0xE0, 0x07, 0, 0, 0, 0] : List ℕ).getD 0 0 +
            256 * ([0x00, 0xF8, 0xE0, 0x07, 0, 0, 0, 0] : List ℕ).getD 1 0) &&& 0x1F) <<< 3) 0) :=
  C6_color_subblock [0x00, 0xF8, 0xE0, 0x07, 0, 0, 0, 0] (fun _ => 9) 0 16 0 0 0
    (by decide) (by decide) (by decide) (by decide) (by decide)

/-! ## C7 -/

/-- C7 (confirmed).  Alpha sub-block decoder: the two endpoints are the
first two bytes, the 48-bit index stream is the little-endian load shifted
right 16, consumed LSB-first 3 bits per pixel in row-major order; index 0
decodes to `a0`, index 1 to `a1`; when `a0 > a1` index `k ∈ {2..7}`
decodes to `((8-k)·a0 + (k-1)·a1)/7`; otherwise `k ∈ {2..5}` decodes to
`((6-k)·a0 + (k-1)·a1)/5`, index 6 to 0 and index 7 to 255. -/
theorem C7_alpha_subblock (src : List ℕ) (f : ℕ → ℕ) (base yOff x y : ℕ)
    (hyOff : 16 ≤ yOff) (hx : x < 4) (hy : y < 4) :
    (decodeBC3AlphaBlock f base 4 4 4 yOff src (base + yOff * y + 4 * x) =
      bc3AlphaValue (src.getD 0 0) (src.getD 1 0)
        (((leNat (src.take 8) >>> 16) >>> (3 * (4 * y + x))) &&& 7)) ∧
    (∀ a0 a1 k : ℕ,
      bc3AlphaValue a0 a1 0 = a0 ∧
      bc3AlphaValue a0 a1 1 = a1 ∧
      (a0 > a1 → 2 ≤ k → k ≤ 7 →
        bc3AlphaValue a0 a1 k = ((8 - k) * a0 + (k - 1) * a1) / 7) ∧
      (a0 ≤ a1 → 2 ≤ k → k ≤ 5 →
        bc3AlphaValue a0 a1 k = ((6 - k) * a0 + (k - 1) * a1) / 5) ∧
      (a0 ≤ a1 → bc3AlphaValue a0 a1 6 = 0 ∧ bc3AlphaValue a0 a1 7 = 255)) := by
  constructor
  · show decAlphaRows 4 yOff 4 (src.getD 0 0) (src.getD 1 0) f base 0
      (leNat (src.take 8) >>> 16) 4 (base + yOff * y + 4 * x) = _
    have hv := decAlphaRows4_value 4 yOff (src.getD 0 0) (src.getD 1 0) (by omega) (by omega)
      4 f base 0 (leNat (src.take 8) >>> 16) y x hy hx
    rw [Nat.zero_add] at hv
    exact hv
  · intro a0 a1 k
    refine ⟨by simp [bc3AlphaValue], by simp [bc3AlphaValue], ?_, ?_, ?_⟩
    · intro hgt h2 h7
      simp only [bc3AlphaValue]
      rw [if_neg (by omega), if_neg (by omega), if_pos hgt]
    · intro hle h2 h5
      simp only [bc3AlphaValue]
      rw [if_neg (by omega), if_neg (by omega), if_neg (by omega), if_neg (by omega)]
    · intro hle
      constructor
      · simp only [bc3AlphaValue]
        rw [if_neg (by omega), if_neg (by omega), if_neg (by omega), if_pos (by omega)]
        simp
      · simp only [bc3AlphaValue]
        rw [if_neg (by omega), if_neg (by omega), if_neg (by omega), if_pos (by omega)]
        simp

/-- Closed witness for `C7_alpha_subblock`: endpoints 200 and 100, all
indices 0, pixel (0,0). -/
theorem C7_alpha_subblock_witness :
    (decodeBC3AlphaBlock (fun _ => 9) 0 4 4 4 16 [200, 100, 0, 0, 0, 0, 0, 0]
        (0 + 16 * 0 + 4 * 0) =
      bc3AlphaValue (([200, 100, 0, 0, 0, 0, 0, 0] : List ℕ).getD 0 0)
        (([200, 100, 0, 0, 0, 0, 0, 0] : List ℕ).getD 1 0)
        (((leNat (([200, 100, 0, 0, 0, 0, 0, 0] : List ℕ).take 8) >>> 16) >>>
          (3 * (4 * 0 + 0))) &&& 7)) ∧
    (∀ a0 a1 k : ℕ,
      bc3AlphaValue a0 a1 0 = a0 ∧
      bc3AlphaValue a0 a1 1 = a1 ∧
      (a0 > a1 → 2 ≤ k → k ≤ 7 →
        bc3AlphaValue a0 a1 k = ((8 - k) * a0 + (k - 1) * a1) / 7) ∧
      (a0 ≤ a1 → 2 ≤ k → k ≤ 5 →
        bc3AlphaValue a0 a1 k = ((6 - k) * a0 + (k - 1) * a1) / 5) ∧
      (a0 ≤ a1 → bc3AlphaValue a0 a1 6 = 0 ∧ bc3AlphaValue a0 a1 7 = 255)) :=
  C7_alpha_subblock [200, 100, 0, 0, 0, 0, 0, 0] (fun _ => 9) 0 16 0 0
    (by decide) (by decide) (by decide)

/-! ## C10 -/

/-- C10 (confirmed).  Frame effect of the color sub-block decoder: it
writes only byte offsets `base + yOff·y + 4·x + c` with `c < 3` — the RGB
bytes — and leaves every other address untouched; hence in full-block
decompression (alpha first at `dest + 3`, then color) the alpha byte of
every pixel still holds exactly what the alpha decoder wrote, and the RGB
bytes hold exactly the color decoder's output. -/
theorem C10_color_frame (src : List ℕ) (f : ℕ → ℕ) (base yOff x y : ℕ)
    (hsrc : src.length = 16) (hyOff : 16 ≤ yOff) (hquad : 4 ∣ yOff)
    (hx : x < 4) (hy : y < 4) :
    (∀ (g : ℕ → ℕ) (csrc : List ℕ) (t : ℕ),
      (∀ y' < 4, ∀ x' < 4, ∀ c < 3, t ≠ base + yOff * y' + 4 * x' + c) →
      decodeBCColorBlock true g base 4 4 4 yOff csrc t = g t) ∧
    decodeBC3Block f base yOff src (base + yOff * y + 4 * x + 3) =
      decodeBC3AlphaBlock f (base + 3) 4 4 4 yOff (src.take 8)
        (base + yOff * y + 4 * x + 3) ∧
    (∀ c < 3, decodeBC3Block f base yOff src (base + yOff * y + 4 * x + c) =
      rgbComp (bcColors true
        ((src.drop 8).getD 0 0 + 256 * (src.drop 8).getD 1 0)
        ((src.drop 8).getD 2 0 + 256 * (src.drop 8).getD 3 0)
        (((src.drop 8).getD (4 + y) 0 >>> (2 * x)) &&& 3)) c) := by
  have hframe : ∀ (g : ℕ → ℕ) (csrc : List ℕ) (t : ℕ),
      (∀ y' < 4, ∀ x' < 4, ∀ c < 3, t ≠ base + yOff * y' + 4 * x' + c) →
      decodeBCColorBlock true g base 4 4 4 yOff csrc t = g t := by
    intro g csrc t hmiss
    exact decodeBCColorBlock_frame true csrc g base yOff t hmiss
  refine ⟨hframe, ?_, ?_⟩
  · show decodeBCColorBlock true (decodeBC3AlphaBlock f (base + 3) 4 4 4 yOff (src.take 8))
      base 4 4 4 yOff (src.drop 8) (base + yOff * y + 4 * x + 3) = _
    refine hframe _ _ _ ?_
    intro y' hy' x' hx' c hc
    obtain ⟨q, rfl⟩ := hquad
    have e1 : 4 * q * y = 4 * (q * y) := by ring
    have e2 : 4 * q * y' = 4 * (q * y') := by ring
    rw [e1, e2]
    omega
  · intro c hc
    show decodeBCColorBlock true (decodeBC3AlphaBlock f (base + 3) 4 4 4 yOff (src.take 8))
      base 4 4 4 yOff (src.drop 8) (base + yOff * y + 4 * x + c) = _
    exact decodeBCColorBlock_value true (src.drop 8) _ base yOff x y c
      (by rw [List.length_drop, hsrc]) hyOff hx hy hc

/-- Closed witness for `C10_color_frame`: a 16-byte block of zeros at
`base = 0`, row stride 16, pixel (0,0). -/
theorem C10_color_frame_witness :
    (∀ (g : ℕ → ℕ) (csrc : List ℕ) (t : ℕ),
      (∀ y' < 4, ∀ x' < 4, ∀ c < 3, t ≠ 0 + 16 * y' + 4 * x' + c) →
      decodeBCColorBlock true g 0 4 4 4 16 csrc t = g t) ∧
    decodeBC3Block (fun _ => 9) 0 16 (List.replicate 16 0) (0 + 16 * 0 + 4 * 0 + 3) =
      decodeBC3AlphaBlock (fun _ => 9) (0 + 3) 4 4 4 16 ((List.replicate 16 0).take 8)
        (0 + 16 * 0 + 4 * 0 + 3) ∧
    (∀ c < 3, decodeBC3Block (fun _ => 9) 0 16 (List.replicate 16 0) (0 + 16 * 0 + 4 * 0 + c) =
      rgbComp (bcColors true
        (((List.replicate 16 (0 : ℕ)).drop 8).getD 0 0 +
          256 * ((List.replicate 16 (0 : ℕ)).drop 8).getD 1 0)
        (((List.replicate 16 (0 : ℕ)).drop 8).getD 2 0 +
          256 * ((List.replicate 16 (0 : ℕ)).drop 8).getD 3 0)
        ((((List.replicate 16 (0 : ℕ)).drop 8).getD (4 + 0) 0 >>> (2 * 0)) &&& 3)) c) :=
  C10_color_frame (List.replicate 16 0) (fun _ => 9) 0 16 0 0
    (by decide) (by decide) (by decide) (by decide) (by decide)

end Bumpx
